import Mathlib

/-!
A shallow embedding of the rule-schema validator of `q2-metadata`
(`q2_metadata/normalization/_norm_rules.py`), together with proofs about
its checkers, its dispatcher `check_rule` and the validation pass
`check_variables_rules`.

Python's untyped parsed-YAML values are embedded as the inductive `PyVal`.
-/

set_option maxHeartbeats 1000000
set_option linter.unusedVariables false

namespace Q2M

/-- Embedding of the Python values a parsed rule document can contain.
`bool` is a separate constructor, but remember that in Python `bool` is a
subtype of `int`, so every `isinstance(_, int)` test below also accepts
booleans.  A float is carried as its printed form only: no checker in the
source performs arithmetic on a float, they only test its type with
`isinstance` and render it with `str`. -/
inductive PyVal where
  | str (s : String)
  | int (n : Int)
  | bool (b : Bool)
  | float (printed : String)
  | pynone
  | list (xs : List PyVal)
  | dict (kvs : List (PyVal × PyVal))

namespace PyVal

/-- `isinstance(x, str)`. -/
def isStr : PyVal → Bool
  | .str _ => true
  | _ => false

/-- `isinstance(x, list)`. -/
def isList : PyVal → Bool
  | .list _ => true
  | _ => false

/-- `isinstance(x, dict)`. -/
def isDict : PyVal → Bool
  | .dict _ => true
  | _ => false

/-- `isinstance(x, (str, int, float))`; a Python `bool` is an `int`. -/
def isStrIntFloat : PyVal → Bool
  | .str _ => true
  | .int _ => true
  | .bool _ => true
  | .float _ => true
  | _ => false

/-- `isinstance(x, (int, float))`; a Python `bool` is an `int`. -/
def isIntFloat : PyVal → Bool
  | .int _ => true
  | .bool _ => true
  | .float _ => true
  | _ => false

end PyVal

mutual

/-- Python `==` on embedded values (structural; the cross-type numeric
equalities `1 == 1.0 == True` of Python are never exercised by the
checkers, whose comparisons are between strings). -/
def pyEq : PyVal → PyVal → Bool
  | .str a, .str b => a == b
  | .int a, .int b => a == b
  | .bool a, .bool b => a == b
  | .float a, .float b => a == b
  | .pynone, .pynone => true
  | .list a, .list b => pyEqList a b
  | .dict a, .dict b => pyEqPairs a b
  | _, _ => false

/-- Elementwise `pyEq` on lists. -/
def pyEqList : List PyVal → List PyVal → Bool
  | [], [] => true
  | x :: xs, y :: ys => pyEq x y && pyEqList xs ys
  | _, _ => false

/-- Elementwise `pyEq` on key-value pair lists. -/
def pyEqPairs : List (PyVal × PyVal) → List (PyVal × PyVal) → Bool
  | [], [] => true
  | (k, v) :: xs, (k', v') :: ys => pyEq k k' && pyEq v v' && pyEqPairs xs ys
  | _, _ => false

end

mutual

/-- Python `repr` of an embedded value (the corner cases of Python's
string-escaping inside `repr` are not modelled; no checker relies on
them). -/
def pyRepr : PyVal → String
  | .str s => "'" ++ s ++ "'"
  | .int n => toString n
  | .bool b => if b then "True" else "False"
  | .float printed => printed
  | .pynone => "None"
  | .list xs => "[" ++ pyReprList xs ++ "]"
  | .dict kvs => "\x7b" ++ pyReprPairs kvs ++ "\x7d"

/-- Comma-separated `repr`s of the elements of a list. -/
def pyReprList : List PyVal → String
  | [] => ""
  | [x] => pyRepr x
  | x :: xs => pyRepr x ++ ", " ++ pyReprList xs

/-- Comma-separated `repr: repr` renderings of the entries of a dict. -/
def pyReprPairs : List (PyVal × PyVal) → String
  | [] => ""
  | [(k, v)] => pyRepr k ++ ": " ++ pyRepr v
  | (k, v) :: kvs => pyRepr k ++ ": " ++ pyRepr v ++ ", " ++ pyReprPairs kvs

end

/-- Python `str` of an embedded value: the string itself for a string,
`repr` otherwise (as in CPython for the types a rule document contains). -/
def pyStr : PyVal → String
  | .str s => s
  | v => pyRepr v

/-- Python `in` on a list (element membership) or a dict (key membership). -/
def pyMem (x : PyVal) : PyVal → Bool
  | .list xs => xs.any (fun y => pyEq x y)
  | .dict kvs => kvs.any (fun kv => pyEq x kv.1)
  | _ => false

/-- First-match lookup in a key-value pair list, Python `d[k]`
(`Option.none` where Python would raise `KeyError`). -/
def lookupA : List (PyVal × PyVal) → PyVal → Option PyVal
  | [], _ => Option.none
  | (k0, v0) :: rest, k => if pyEq k0 k then some v0 else lookupA rest k

/-- Python `d[k] = v` on a key-value pair list: replace the value of the
(first) entry with key `k`, keeping its position and original key object,
or append a new entry — exactly CPython's dict-update semantics. -/
def setA : List (PyVal × PyVal) → PyVal → PyVal → List (PyVal × PyVal)
  | [], k, v => [(k, v)]
  | (k0, v0) :: rest, k, v =>
    if pyEq k0 k then (k0, v) :: rest else (k0, v0) :: setA rest k v

/-- Python `d[k]` on a dict value. -/
def dictGet : PyVal → PyVal → Option PyVal
  | .dict kvs, k => lookupA kvs k
  | _, _ => Option.none

/-- Python `d[k] = v` on a dict value (identity on a non-dict, a case the
dispatcher never reaches). -/
def dictSet : PyVal → PyVal → PyVal → PyVal
  | .dict kvs, k, v => .dict (setA kvs k v)
  | d, _, _ => d

/-- `set(d).issubset(allowed)` where `d`'s keys are given in insertion
order and `allowed` is a Python list (element membership) or dict (key
membership); deduplication by `set` cannot change a subset test. -/
def pySubset (keys : List PyVal) (allowed : PyVal) : Bool :=
  keys.all (fun k => pyMem k allowed)

/-- `'", "'.join(set(keys).difference(allowed))`: the offending keys
rendered and joined.  Python iterates the set in unspecified order; this
model keeps the keys' insertion order (dict keys are already unique).  No
claim depends on this string's content. -/
def diffJoin (keys : List PyVal) (allowed : PyVal) : String :=
  String.intercalate "\", \"" ((keys.filter (fun k => !pyMem k allowed)).map pyStr)

/-! ## The per-rule checkers (`RulesCollection` static methods) -/

/-- `RulesCollection.check_expected`: the value must be a list of strings. -/
def check_expected (rule_value allowed : PyVal) : List PyVal :=
  match rule_value with
  | .list xs =>
    let wrong := xs.filter (fun x => !x.isStr)
    if wrong.length ≠ 0 then [.str "not a string", .list wrong] else []
  | _ => [.str "not a list"]

/-- `RulesCollection.check_remap`: the value must be a dict whose keys and
values are all `str`, `int` or `float` instances. -/
def check_remap (rule_value allowed : PyVal) : List PyVal :=
  match rule_value with
  | .dict kvs =>
    let wrong := (kvs.filter
        (fun kv => !kv.1.isStrIntFloat || !kv.2.isStrIntFloat)).map
      (fun kv => PyVal.str (pyStr kv.1 ++ ": " ++ pyStr kv.2))
    if wrong.length ≠ 0 then [.str "not str, int or float", .list wrong] else []
  | _ => [.str "not a dictionary"]

/-- Inner loop of `check_validation`: over the items of one nested dict,
returning at the first nested key not in `allowed[allowed_key]` or the
first non-list nested value. -/
def checkValidationInner (allowedSub : PyVal) :
    List (PyVal × PyVal) → List PyVal
  | [] => []
  | (nested_rule, vars) :: rest =>
    if !pyMem nested_rule allowedSub then [.str "not allowed", nested_rule]
    else if !vars.isList then [.str "not a list", vars]
    else checkValidationInner allowedSub rest

/-- Outer loop of `check_validation`: over the items of the rule value,
each of which must be a nested dict whose items pass
`checkValidationInner`. -/
def checkValidationOuter (allowed : PyVal) :
    List (PyVal × PyVal) → List PyVal
  | [] => []
  | (allowed_key, nested_dict) :: rest =>
    match nested_dict with
    | .dict nkvs =>
      match checkValidationInner
          ((dictGet allowed allowed_key).getD .pynone) nkvs with
      | [] => checkValidationOuter allowed rest
      | e => e
    | _ => [.str "not a nested dictionary"]

/-- `RulesCollection.check_validation`: the value must be a dict whose
keys are a subset of the allowed two-level schema, with nested dicts whose
keys are allowed and whose values are lists. -/
def check_validation (rule_value allowed : PyVal) : List PyVal :=
  match rule_value with
  | .dict kvs =>
    if pySubset (kvs.map Prod.fst) allowed then checkValidationOuter allowed kvs
    else [.str "not allowed", .str (diffJoin (kvs.map Prod.fst) allowed)]
  | _ => [.str "not a dictionary"]

/-- `RulesCollection.check_normalization`: the value must be a dict whose
keys are a subset of the allowed key list and whose values are numeric
(`isinstance(y, (int, float))`). -/
def check_normalization (rule_value allowed : PyVal) : List PyVal :=
  match rule_value with
  | .dict kvs =>
    if pySubset (kvs.map Prod.fst) allowed then
      let not_numeric := (kvs.filter (fun kv => !kv.2.isIntFloat)).map Prod.fst
      if not_numeric.length ≠ 0 then [.str "not numeric", .list not_numeric]
      else []
    else [.str "not allowed", .str (diffJoin (kvs.map Prod.fst) allowed)]
  | _ => [.str "not a dictionary"]

/-- `RulesCollection.check_allowed` (rules `ontology`, `blank`, `missing`
and `format`): the value must be a string that is a member of the rule's
reference list. -/
def check_allowed (rule_value allowed : PyVal) : List PyVal :=
  match rule_value with
  | .str s => if !pyMem (.str s) allowed then [.str "not allowed", .str s] else []
  | _ => [.str "not a string"]

/-! ## Reference data, the per-variable container and the collection -/

/-- Modelled from the spec: contents of the asset file
`q2_metadata/normalization/assets/rules_allowed.yml`, which is read into
`RulesCollection.rules_allowed` but is not part of the source tree.  The
per-rule allowed sets follow §4.1/§6 of the spec and the docstring of
`check_allowed` (ontology: `Gazetteer ontology`; validation:
`force_to_blank_if`/`is null`; normalization: `maximum`, `minimum`,
`gated_value`; blank/missing: the four sentinel tokens; format: the four
type tags).  `expected` and `remap` ignore their reference argument. -/
def rules_allowed : String → PyVal
  | "ontology" => .list [.str "Gazetteer ontology"]
  | "validation" => .dict [(.str "force_to_blank_if", .list [.str "is null"])]
  | "normalization" => .list [.str "maximum", .str "minimum", .str "gated_value"]
  | "blank" => .list [.str "not applicable", .str "not collected",
      .str "not provided", .str "restricted access"]
  | "missing" => .list [.str "not applicable", .str "not collected",
      .str "not provided", .str "restricted access"]
  | "format" => .list [.str "bool", .str "float", .str "int", .str "str"]
  | _ => .pynone

/-- The default validated-rules structure built in `Rules.__init__`. -/
def rulesDefault : PyVal :=
  .dict [
    (.str "edits", .dict [
      (.str "remap", .dict []),
      (.str "normalization", .dict []),
      (.str "validation", .dict [])]),
    (.str "lookups", .dict [
      (.str "ontology", .pynone),
      (.str "expected", .list [])]),
    (.str "allowed", .dict [
      (.str "blank", .pynone),
      (.str "missing", .pynone),
      (.str "format", .pynone)])]

/-- The per-variable rule container (class `Rules`): the validated
structure `rules` and the raw parsed document `parsed_rules` (a mapping
from rule-kind name to raw value, in document order). -/
structure Rules where
  rules : PyVal
  parsed_rules : List (String × PyVal)

/-- `Rules.__init__` given an already-parsed rule document. -/
def Rules.init (parsed_rules : List (String × PyVal)) : Rules :=
  ⟨rulesDefault, parsed_rules⟩

/-- One structured record of the ErrorLog: the arguments the dispatcher
passes to `RuleFormatError.collect` — variable name, rule-kind name,
offending raw value, destination bucket (`rule_type`, empty for an
unrecognized rule kind) and the failure detail (the checker's non-empty
result list, or the string `rule not recognized`). -/
structure ErrorRecord where
  var : String
  rule : String
  value : PyVal
  rule_type : String
  error : PyVal

/-- Modelled from the spec: the `RuleFormatError.collect` method of the
ErrorLog class (imported by `_norm_rules.py` from `_norm_errors.py`, where
it is absent from the source tree).  Per §3, a StructuredError is
"Accumulated into an ErrorLog; never silently dropped": `collect` appends
one structured record carrying exactly its arguments. -/
def RuleFormatError.collect (log : List ErrorRecord) (var rule : String)
    (value : PyVal) (rule_type : String) (error : PyVal) : List ErrorRecord :=
  log ++ [⟨var, rule, value, rule_type, error⟩]

/-- The collection (class `RulesCollection`): the per-variable containers,
keyed by variable name, and the ErrorLog.  The `rules_allowed` attribute
is the constant reference table above. -/
structure RulesCollection where
  variables_rules : List (String × Rules)
  rules_format_error : List ErrorRecord

/-- Python dict access `d[v]` for a string-keyed mapping modelled as an
association list (`Option.none` where Python would raise `KeyError`). -/
def findA {α : Type} (vr : List (String × α)) (v : String) : Option α :=
  match vr with
  | [] => Option.none
  | (k, r) :: rest => if k = v then some r else findA rest v

/-- Update the container of variable `v` in place (every entry with that
key; a Python dict holds it at most once). -/
def updateVar : List (String × Rules) → String → (Rules → Rules) →
    List (String × Rules)
  | [], _, _ => []
  | (k, r) :: rest, v, f =>
    (if k = v then (k, f r) else (k, r)) :: updateVar rest v f

/-- The statement `rules[rule_type][rule] = rule_value`: Python first
evaluates `rules[rule_type]` (present for every bucket name of the default
structure; on a missing bucket it would raise `KeyError`, modelled as a
no-op on an unreachable branch) and then updates that inner dict. -/
def storeRule (d : PyVal) (rule_type rule : String) (rule_value : PyVal) :
    PyVal :=
  match dictGet d (.str rule_type) with
  | some inner => dictSet d (.str rule_type) (dictSet inner (.str rule) rule_value)
  | Option.none => d

/-- The `rule_type_map` literal of `RulesCollection.check_rule`:
rule kind ↦ (checker, destination bucket). -/
def rule_type_map (rule : String) :
    Option ((PyVal → PyVal → List PyVal) × String) :=
  match rule with
  | "normalization" => some (check_normalization, "edits")
  | "validation" => some (check_validation, "edits")
  | "remap" => some (check_remap, "edits")
  | "expected" => some (check_expected, "lookups")
  | "ontology" => some (check_allowed, "lookups")
  | "blank" => some (check_allowed, "allowed")
  | "missing" => some (check_allowed, "allowed")
  | "format" => some (check_allowed, "allowed")
  | _ => Option.none

/-- `RulesCollection.check_rule`: dispatch one rule of one variable.  On
checker success the raw value is written into the variable's validated
structure at `rules[rule_type][rule]`; on failure (or an unrecognized rule
kind) a structured record is collected into the ErrorLog. -/
def check_rule (st : RulesCollection) (var rule : String) (rule_value : PyVal) :
    RulesCollection :=
  match rule_type_map rule with
  | some mt =>
    let error := mt.1 rule_value (rules_allowed rule)
    if error.length = 0 then
      let vr := updateVar st.variables_rules var
        (fun r => { r with rules := storeRule r.rules mt.2 rule rule_value })
      { st with variables_rules := vr }
    else
      let log := RuleFormatError.collect
        st.rules_format_error var rule rule_value mt.2 (.list error)
      { st with rules_format_error := log }
  | Option.none =>
      let log := RuleFormatError.collect
        st.rules_format_error var rule rule_value "" (.str "rule not recognized")
      { st with rules_format_error := log }

/-- `RulesCollection.check_variables_rules`: dispatch every rule of every
focus variable in order.  (On a focus variable absent from the collection
Python would raise `KeyError`; the caller always passes an intersection
with the collection's keys, and the theorems below assume membership.) -/
def check_variables_rules (st : RulesCollection) (focus : List String) :
    RulesCollection :=
  focus.foldl (fun s var =>
    match findA s.variables_rules var with
    | some variable_rules =>
      variable_rules.parsed_rules.foldl (fun s2 p => check_rule s2 var p.1 p.2) s
    | Option.none => s) st

/-- A file name beginning with a dot (skipped by Python's `glob`). -/
def isHidden : List Char → Bool
  | '.' :: _ => true
  | _ => false

/-- The file names matched by `glob('%s/*.yml' % dir)`: name ends in
`.yml` and is not a dot-file (character-level, so that it evaluates). -/
def isYmlFile (f : String) : Bool :=
  ".yml".data.isSuffixOf f.data && !isHidden f.data

/-- `RulesCollection.check_variables_rules_dir`: the directory listing is
passed explicitly (`Option.none` models a path that is not an existing
directory, `some entries` the names inside the directory); failures are
the `IOError`s the source raises, successes the list of `*.yml` paths
returned by `glob`. -/
def check_variables_rules_dir (variables_rules_dir : String)
    (listing : Option (List String)) : Except String (List String) :=
  match listing with
  | Option.none =>
    .error ("Input directory " ++ variables_rules_dir ++ " does not exist")
  | some entries =>
    let variables_rules_files :=
      (entries.filter isYmlFile).map (fun f => variables_rules_dir ++ "/" ++ f)
    if variables_rules_files = [] then
      .error ("Input directory " ++ variables_rules_dir ++ " empty")
    else .ok variables_rules_files

/-! ## Observers used by the statements -/

/-- `rules[b][r]` read on a validated structure: the value stored in
bucket `b` at rule kind `r`. -/
def get2 (d : PyVal) (b r : String) : Option PyVal :=
  (dictGet d (.str b)).bind (fun inner => dictGet inner (.str r))

/-- The slot of variable `var`, bucket `b`, rule kind `r` in a collection. -/
def slotOf (st : RulesCollection) (var b r : String) : Option PyVal :=
  (findA st.variables_rules var).bind (fun rv => get2 rv.rules b r)

/-- The raw parsed documents of a collection, without the validated
structures: `check_rule` never changes this projection. -/
def parsedProj (vr : List (String × Rules)) :
    List (String × List (String × PyVal)) :=
  vr.map (fun kr => (kr.1, kr.2.parsed_rules))

/-- The records the dispatcher sends to the ErrorLog for one rule:
none on checker success, the rule-kind-specific record on checker failure,
the `rule not recognized` record on an unrecognized rule kind. -/
def ruleErrors (var rule : String) (rule_value : PyVal) : List ErrorRecord :=
  match rule_type_map rule with
  | some mt =>
    let error := mt.1 rule_value (rules_allowed rule)
    if error.length = 0 then [] else [⟨var, rule, rule_value, mt.2, .list error⟩]
  | Option.none => [⟨var, rule, rule_value, "", .str "rule not recognized"⟩]

/-- The records one variable's whole document sends to the ErrorLog. -/
def varErrors (var : String) (ps : List (String × PyVal)) : List ErrorRecord :=
  (ps.map (fun p => ruleErrors var p.1 p.2)).flatten

/-- The records one validation pass over `focus` sends to the ErrorLog,
computed from the raw parsed documents alone. -/
def focusErrors (proj : List (String × List (String × PyVal))) :
    List String → List ErrorRecord
  | [] => []
  | var :: rest =>
    (match findA proj var with
     | some ps => varErrors var ps
     | Option.none => []) ++ focusErrors proj rest

/-! ## Toolkit lemmas about the embedded dict operations -/

lemma pyEq_str_str (a b : String) : pyEq (.str a) (.str b) = (a == b) := rfl

lemma pyEq_str_self (s : String) : pyEq (.str s) (.str s) = true := by
  rw [pyEq_str_str]; exact beq_self_eq_true s

lemma pyEq_str_iff (x : PyVal) (s : String) :
    pyEq x (.str s) = true ↔ x = .str s := by
  cases x with
  | str a =>
    rw [pyEq_str_str]
    constructor
    · intro h; rw [eq_of_beq h]
    · intro h; cases h; exact beq_self_eq_true s
  | int n => exact ⟨(fun h => nomatch h), (fun h => nomatch h)⟩
  | bool b => exact ⟨(fun h => nomatch h), (fun h => nomatch h)⟩
  | float p => exact ⟨(fun h => nomatch h), (fun h => nomatch h)⟩
  | pynone => exact ⟨(fun h => nomatch h), (fun h => nomatch h)⟩
  | list xs => exact ⟨(fun h => nomatch h), (fun h => nomatch h)⟩
  | dict kvs => exact ⟨(fun h => nomatch h), (fun h => nomatch h)⟩

lemma lookupA_setA_eq (l : List (PyVal × PyVal)) (s : String) (v : PyVal) :
    lookupA (setA l (.str s) v) (.str s) = some v := by
  induction l with
  | nil => simp [setA, lookupA, pyEq_str_self]
  | cons kv rest ih =>
    obtain ⟨k0, v0⟩ := kv
    by_cases h : pyEq k0 (.str s) = true
    · simp [setA, lookupA, h]
    · simp only [setA, lookupA, h]
      simp only [Bool.not_eq_true] at h
      simp [h, lookupA, ih]

lemma lookupA_setA_ne (l : List (PyVal × PyVal)) (s t : String) (hst : s ≠ t)
    (v : PyVal) :
    lookupA (setA l (.str s) v) (.str t) = lookupA l (.str t) := by
  induction l with
  | nil =>
    simp only [setA, lookupA]
    rw [pyEq_str_str]
    simp [hst]
  | cons kv rest ih =>
    obtain ⟨k0, v0⟩ := kv
    by_cases h : pyEq k0 (.str s) = true
    · have hk0 : k0 = .str s := (pyEq_str_iff k0 s).mp h
      subst hk0
      have ht : pyEq (PyVal.str s) (.str t) = false := by
        rw [pyEq_str_str]; simp [hst]
      simp [setA, lookupA, h, ht]
    · simp only [Bool.not_eq_true] at h
      simp [setA, lookupA, h, ih]

lemma setA_lookupA_self (l : List (PyVal × PyVal)) (k v : PyVal)
    (h : lookupA l k = some v) : setA l k v = l := by
  induction l with
  | nil => simp [lookupA] at h
  | cons kv rest ih =>
    obtain ⟨k0, v0⟩ := kv
    by_cases hk : pyEq k0 k = true
    · simp only [lookupA, hk, if_true, Option.some.injEq] at h
      simp [setA, hk, h]
    · simp only [Bool.not_eq_true] at hk
      simp only [lookupA, hk, Bool.false_eq_true, if_false] at h
      simp [setA, hk, ih h]

lemma dictGet_isDict {d k : PyVal} {v : PyVal} (h : dictGet d k = some v) :
    ∃ l, d = .dict l := by
  cases d <;> simp [dictGet] at h ⊢

lemma dictGet_dictSet_eq (l : List (PyVal × PyVal)) (s : String) (v : PyVal) :
    dictGet (dictSet (.dict l) (.str s) v) (.str s) = some v := by
  simp [dictSet, dictGet, lookupA_setA_eq]

lemma dictGet_dictSet_ne (d : PyVal) (s t : String) (hst : s ≠ t) (v : PyVal) :
    dictGet (dictSet d (.str s) v) (.str t) = dictGet d (.str t) := by
  cases d <;> simp [dictSet, dictGet]
  exact lookupA_setA_ne _ s t hst v

lemma dictSet_self {d k v : PyVal} (h : dictGet d k = some v) :
    dictSet d k v = d := by
  obtain ⟨l, rfl⟩ := dictGet_isDict h
  simp only [dictGet] at h
  simp [dictSet, setA_lookupA_self l k v h]

/-! ## Toolkit lemmas about `storeRule` and the variable map -/

lemma storeRule_get2_eq {d : PyVal} {b : String} {bl : List (PyVal × PyVal)}
    (hb : dictGet d (.str b) = some (.dict bl)) (r : String) (v : PyVal) :
    get2 (storeRule d b r v) b r = some v := by
  obtain ⟨dl, rfl⟩ := dictGet_isDict hb
  simp only [storeRule, hb, get2, dictGet_dictSet_eq, Option.bind_some]
  simp [dictSet, dictGet, lookupA_setA_eq]

lemma storeRule_get2_ne {d : PyVal} {b r b' r' : String}
    (hne : b ≠ b' ∨ r ≠ r') (v : PyVal) :
    get2 (storeRule d b r v) b' r' = get2 d b' r' := by
  unfold storeRule
  cases hd : dictGet d (.str b) with
  | none => rfl
  | some inner =>
    obtain ⟨dl, rfl⟩ := dictGet_isDict hd
    by_cases hbb : b = b'
    · subst hbb
      rcases hne with hne | hne
      · exact absurd rfl hne
      · simp only [get2, dictGet_dictSet_eq, hd, Option.bind_some]
        cases inner with
        | dict il =>
          simp [dictSet, dictGet, lookupA_setA_ne _ r r' hne]
        | str s => rfl
        | int n => rfl
        | bool bb => rfl
        | float p => rfl
        | pynone => rfl
        | list xs => rfl
    · simp [get2, dictGet_dictSet_ne _ b b' hbb]

lemma storeRule_self {d : PyVal} {b r : String} {v : PyVal}
    (h : get2 d b r = some v) : storeRule d b r v = d := by
  simp only [get2] at h
  cases hb : dictGet d (.str b) with
  | none => simp [storeRule, hb]
  | some inner =>
    rw [hb] at h
    simp only [Option.bind] at h
    simp [storeRule, hb, dictSet_self h, dictSet_self hb]

lemma findA_updateVar_eq (vr : List (String × Rules)) (v : String)
    (f : Rules → Rules) :
    findA (updateVar vr v f) v = (findA vr v).map f := by
  induction vr with
  | nil => rfl
  | cons kr rest ih =>
    obtain ⟨k, r⟩ := kr
    by_cases h : k = v
    · subst h
      rw [updateVar, if_pos rfl]
      simp [findA]
    · rw [updateVar, if_neg h]
      simp [findA, h, ih]

lemma findA_updateVar_ne (vr : List (String × Rules)) (v w : String)
    (hvw : w ≠ v) (f : Rules → Rules) :
    findA (updateVar vr v f) w = findA vr w := by
  induction vr with
  | nil => rfl
  | cons kr rest ih =>
    obtain ⟨k, r⟩ := kr
    by_cases h : k = v
    · subst h
      have hkw : ¬ (k = w) := fun hh => hvw hh.symm
      rw [updateVar, if_pos rfl]
      simp [findA, hkw, ih]
    · rw [updateVar, if_neg h]
      by_cases hw : k = w
      · simp [findA, hw]
      · simp [findA, hw, ih]

lemma updateVar_keys (vr : List (String × Rules)) (v : String)
    (f : Rules → Rules) :
    (updateVar vr v f).map Prod.fst = vr.map Prod.fst := by
  induction vr with
  | nil => rfl
  | cons kr rest ih =>
    obtain ⟨k, r⟩ := kr
    by_cases h : k = v
    · rw [updateVar, if_pos h]
      simp [ih]
    · rw [updateVar, if_neg h]
      simp [ih]

lemma updateVar_of_not_mem (rest : List (String × Rules)) (v : String)
    (f : Rules → Rules) (h : v ∉ rest.map Prod.fst) :
    updateVar rest v f = rest := by
  induction rest with
  | nil => rfl
  | cons kr t ih =>
    obtain ⟨k, r⟩ := kr
    simp only [List.map_cons, List.mem_cons] at h
    push_neg at h
    have hk : ¬ (k = v) := fun hh => h.1 hh.symm
    rw [updateVar, if_neg hk, ih h.2]

lemma updateVar_self (vr : List (String × Rules)) (v : String)
    (f : Rules → Rules) (hnd : (vr.map Prod.fst).Nodup)
    {rv : Rules} (hv : findA vr v = some rv) (hf : f rv = rv) :
    updateVar vr v f = vr := by
  induction vr with
  | nil => rfl
  | cons kr rest ih =>
    obtain ⟨k, r⟩ := kr
    simp only [List.map_cons, List.nodup_cons] at hnd
    by_cases h : k = v
    · subst h
      have hv' : r = rv := by
        have hh : findA ((k, r) :: rest) k = some r := by simp [findA]
        rw [hh] at hv
        exact Option.some.inj hv
      subst hv'
      rw [updateVar, if_pos rfl, hf, updateVar_of_not_mem rest k f hnd.1]
    · simp only [findA, h, if_false] at hv
      rw [updateVar, if_neg h, ih hnd.2 hv]

lemma parsedProj_updateVar (vr : List (String × Rules)) (v : String)
    (g : Rules → PyVal) :
    parsedProj (updateVar vr v (fun r => { r with rules := g r })) =
      parsedProj vr := by
  induction vr with
  | nil => rfl
  | cons kr rest ih =>
    obtain ⟨k, r⟩ := kr
    by_cases h : k = v
    · rw [updateVar, if_pos h]
      simp only [parsedProj, List.map_cons] at ih ⊢
      rw [ih]
    · rw [updateVar, if_neg h]
      simp only [parsedProj, List.map_cons] at ih ⊢
      rw [ih]

lemma findA_parsedProj (vr : List (String × Rules)) (v : String) :
    findA (parsedProj vr) v = (findA vr v).map Rules.parsed_rules := by
  induction vr with
  | nil => rfl
  | cons kr rest ih =>
    obtain ⟨k, r⟩ := kr
    by_cases h : k = v
    · simp [parsedProj, findA, h]
    · simp only [parsedProj, List.map_cons, findA, h, if_false] at ih ⊢
      exact ih

/-! ## Decomposition of one dispatch and of one pass -/

lemma check_rule_log (st : RulesCollection) (var rule : String) (v : PyVal) :
    (check_rule st var rule v).rules_format_error
      = st.rules_format_error ++ ruleErrors var rule v := by
  unfold check_rule ruleErrors RuleFormatError.collect
  cases h : rule_type_map rule with
  | none => rfl
  | some mt =>
    by_cases he : (mt.1 v (rules_allowed rule)).length = 0
    · simp [he]
    · simp [he]

lemma check_rule_vr_none {rule : String} (h : rule_type_map rule = Option.none)
    (st : RulesCollection) (var : String) (v : PyVal) :
    (check_rule st var rule v).variables_rules = st.variables_rules := by
  simp [check_rule, h]

lemma check_rule_vr_fail {rule : String}
    {mt : (PyVal → PyVal → List PyVal) × String}
    (h : rule_type_map rule = some mt)
    {v : PyVal} (he : mt.1 v (rules_allowed rule) ≠ [])
    (st : RulesCollection) (var : String) :
    (check_rule st var rule v).variables_rules = st.variables_rules := by
  have hlen : ¬ (mt.1 v (rules_allowed rule)).length = 0 := by
    simpa [List.length_eq_zero] using he
  simp [check_rule, h, hlen]

lemma check_rule_vr_ok {rule : String}
    {mt : (PyVal → PyVal → List PyVal) × String}
    (h : rule_type_map rule = some mt)
    {v : PyVal} (he : mt.1 v (rules_allowed rule) = [])
    (st : RulesCollection) (var : String) :
    (check_rule st var rule v).variables_rules
      = updateVar st.variables_rules var
          (fun r => { r with rules := storeRule r.rules mt.2 rule v }) := by
  simp [check_rule, h, he]

lemma check_rule_parsedProj (st : RulesCollection) (var rule : String)
    (v : PyVal) :
    parsedProj ((check_rule st var rule v).variables_rules)
      = parsedProj st.variables_rules := by
  cases h : rule_type_map rule with
  | none => rw [check_rule_vr_none h]
  | some mt =>
    by_cases he : mt.1 v (rules_allowed rule) = []
    · rw [check_rule_vr_ok h he, parsedProj_updateVar]
    · rw [check_rule_vr_fail h he]

lemma check_rule_keys (st : RulesCollection) (var rule : String) (v : PyVal) :
    (check_rule st var rule v).variables_rules.map Prod.fst
      = st.variables_rules.map Prod.fst := by
  cases h : rule_type_map rule with
  | none => rw [check_rule_vr_none h]
  | some mt =>
    by_cases he : mt.1 v (rules_allowed rule) = []
    · rw [check_rule_vr_ok h he, updateVar_keys]
    · rw [check_rule_vr_fail h he]

lemma varErrors_cons (var : String) (p : String × PyVal)
    (rest : List (String × PyVal)) :
    varErrors var (p :: rest) = ruleErrors var p.1 p.2 ++ varErrors var rest := by
  simp [varErrors]

lemma foldl_check_rule_log (var : String) (ps : List (String × PyVal)) :
    ∀ st : RulesCollection,
      (ps.foldl (fun s2 p => check_rule s2 var p.1 p.2) st).rules_format_error
        = st.rules_format_error ++ varErrors var ps := by
  induction ps with
  | nil => intro st; simp [varErrors]
  | cons p rest ih =>
    intro st
    simp only [List.foldl_cons]
    rw [ih, check_rule_log, varErrors_cons, List.append_assoc]

lemma foldl_check_rule_parsedProj (var : String) (ps : List (String × PyVal)) :
    ∀ st : RulesCollection,
      parsedProj ((ps.foldl (fun s2 p => check_rule s2 var p.1 p.2)
          st).variables_rules)
        = parsedProj st.variables_rules := by
  induction ps with
  | nil => intro st; rfl
  | cons p rest ih =>
    intro st
    simp only [List.foldl_cons]
    rw [ih, check_rule_parsedProj]

lemma foldl_check_rule_keys (var : String) (ps : List (String × PyVal)) :
    ∀ st : RulesCollection,
      ((ps.foldl (fun s2 p => check_rule s2 var p.1 p.2)
          st).variables_rules).map Prod.fst
        = st.variables_rules.map Prod.fst := by
  induction ps with
  | nil => intro st; rfl
  | cons p rest ih =>
    intro st
    simp only [List.foldl_cons]
    rw [ih, check_rule_keys]

lemma check_variables_rules_cons (st : RulesCollection) (var : String)
    (rest : List String) :
    check_variables_rules st (var :: rest)
      = check_variables_rules
          (match findA st.variables_rules var with
           | some variable_rules => variable_rules.parsed_rules.foldl
               (fun s2 p => check_rule s2 var p.1 p.2) st
           | Option.none => st) rest := rfl

lemma check_variables_rules_log (focus : List String) :
    ∀ st : RulesCollection,
      (check_variables_rules st focus).rules_format_error
        = st.rules_format_error
          ++ focusErrors (parsedProj st.variables_rules) focus := by
  induction focus with
  | nil => intro st; simp [check_variables_rules, focusErrors]
  | cons var rest ih =>
    intro st
    rw [check_variables_rules_cons]
    cases hf : findA st.variables_rules var with
    | none =>
      have hp : findA (parsedProj st.variables_rules) var
          = Option.none := by
        rw [findA_parsedProj, hf]; rfl
      rw [ih st]
      simp [focusErrors, hp]
    | some rv =>
      have hp : findA (parsedProj st.variables_rules) var
          = some rv.parsed_rules := by
        rw [findA_parsedProj, hf]; rfl
      rw [ih _, foldl_check_rule_log, foldl_check_rule_parsedProj]
      simp [focusErrors, hp, List.append_assoc]

lemma check_variables_rules_parsedProj (focus : List String) :
    ∀ st : RulesCollection,
      parsedProj ((check_variables_rules st focus).variables_rules)
        = parsedProj st.variables_rules := by
  induction focus with
  | nil => intro st; rfl
  | cons var rest ih =>
    intro st
    rw [check_variables_rules_cons]
    cases hf : findA st.variables_rules var with
    | none => rw [ih st]
    | some rv => rw [ih _, foldl_check_rule_parsedProj]

lemma check_variables_rules_keys (focus : List String) :
    ∀ st : RulesCollection,
      ((check_variables_rules st focus).variables_rules).map Prod.fst
        = st.variables_rules.map Prod.fst := by
  induction focus with
  | nil => intro st; rfl
  | cons var rest ih =>
    intro st
    rw [check_variables_rules_cons]
    cases hf : findA st.variables_rules var with
    | none => rw [ih st]
    | some rv => rw [ih _, foldl_check_rule_keys]

lemma mem_varErrors {var : String} {ps : List (String × PyVal)}
    {p : String × PyVal} {e : ErrorRecord} (hp : p ∈ ps)
    (he : e ∈ ruleErrors var p.1 p.2) : e ∈ varErrors var ps := by
  simp only [varErrors, List.mem_flatten]
  exact ⟨ruleErrors var p.1 p.2, List.mem_map_of_mem _ hp, he⟩

lemma mem_focusErrors {proj : List (String × List (String × PyVal))}
    {var : String} {ps : List (String × PyVal)} {e : ErrorRecord}
    {focus : List String} (hv : var ∈ focus) (hp : findA proj var = some ps)
    (he : e ∈ varErrors var ps) : e ∈ focusErrors proj focus := by
  induction focus with
  | nil => cases hv
  | cons w rest ih =>
    rcases List.mem_cons.mp hv with hv | hv
    · subst hv
      simp only [focusErrors, hp]
      exact List.mem_append_left _ he
    · exact List.mem_append_right _ (ih hv)

/-! ## Checker-shape helper lemmas -/

lemma check_allowed_str (s : String) (allowed : PyVal) :
    check_allowed (.str s) allowed
      = if pyMem (.str s) allowed = true then []
        else [.str "not allowed", .str s] := by
  by_cases hm : pyMem (.str s) allowed = true
  · simp [check_allowed, hm]
  · simp only [Bool.not_eq_true] at hm
    simp [check_allowed, hm]

lemma pyMem_format_iff (s : String) :
    pyMem (.str s) (rules_allowed "format") = true
      ↔ (s = "bool" ∨ s = "float" ∨ s = "int" ∨ s = "str") := by
  show ((s == "bool") || ((s == "float") || ((s == "int")
      || ((s == "str") || false)))) = true ↔ _
  simp [Bool.or_eq_true]

lemma check_remap_dict_ok (kvs : List (PyVal × PyVal)) (allowed : PyVal)
    (hf : (kvs.filter fun kv => !kv.1.isStrIntFloat || !kv.2.isStrIntFloat)
      = []) :
    check_remap (.dict kvs) allowed = [] := by
  unfold check_remap
  simp [hf]

lemma check_remap_dict_bad (kvs : List (PyVal × PyVal)) (allowed : PyVal)
    (hf : (kvs.filter fun kv => !kv.1.isStrIntFloat || !kv.2.isStrIntFloat)
      ≠ []) :
    check_remap (.dict kvs) allowed
      = [.str "not str, int or float",
         .list ((kvs.filter
             fun kv => !kv.1.isStrIntFloat || !kv.2.isStrIntFloat).map
           (fun kv => PyVal.str (pyStr kv.1 ++ ": " ++ pyStr kv.2)))] := by
  unfold check_remap
  have hlen : ¬ ((kvs.filter
        fun kv => !kv.1.isStrIntFloat || !kv.2.isStrIntFloat).map
      (fun kv => PyVal.str (pyStr kv.1 ++ ": " ++ pyStr kv.2))).length = 0 := by
    rw [List.length_map, List.length_eq_zero]
    exact hf
  simp only [ne_eq]
  rw [if_pos hlen]

/-! ## Claim theorems -/

/-- C4, counterexample: the `format` checker is case-sensitive.  `"STR"`
is a case-insensitive member of `{bool, float, int, str}` (its lowercase
form is `"str"`, a member), yet `check_allowed` rejects it with
`not allowed`, so the claimed "accepts iff case-insensitive member" fails
at the raw value `"STR"`. -/
theorem C4_counterexample_format_case_insensitive :
    check_allowed (.str "STR") (rules_allowed "format")
        = [.str "not allowed", .str "STR"]
    ∧ check_allowed (.str "STR") (rules_allowed "format") ≠ []
    ∧ "STR".data.map Char.toLower = "str".data
    ∧ "str" ∈ ["bool", "float", "int", "str"] :=
  ⟨rfl, (fun h => nomatch h), by decide, by decide⟩

/-- C4, amended: the checker for the `format` rule kind accepts a raw
value iff it is a string that is a case-SENSITIVE member of
`{bool, float, int, str}`; a non-string fails with `not a string` and any
other string fails with `not allowed` echoing the offending value. -/
theorem C4_format_case_sensitive_membership (v : PyVal) :
    (check_allowed v (rules_allowed "format") = []
      ↔ ∃ s, v = .str s ∧ (s = "bool" ∨ s = "float" ∨ s = "int" ∨ s = "str"))
    ∧ (∀ s, v = .str s →
        ¬ (s = "bool" ∨ s = "float" ∨ s = "int" ∨ s = "str") →
        check_allowed v (rules_allowed "format")
          = [.str "not allowed", .str s])
    ∧ ((∀ s, v ≠ .str s) →
        check_allowed v (rules_allowed "format") = [.str "not a string"]) := by
  refine ⟨?_, ?_, ?_⟩
  · cases v with
    | str s =>
      rw [check_allowed_str]
      by_cases hm : pyMem (.str s) (rules_allowed "format") = true
      · rw [if_pos hm]
        exact iff_of_true rfl ⟨s, rfl, (pyMem_format_iff s).mp hm⟩
      · rw [if_neg hm]
        constructor
        · intro h; exact absurd h (by simp)
        · rintro ⟨t, ht, hmem⟩
          injection ht with ht
          subst ht
          exact absurd ((pyMem_format_iff s).mpr hmem) hm
    | int n => exact ⟨(fun h => nomatch h), (fun ⟨s, hs, _⟩ => nomatch hs)⟩
    | bool b => exact ⟨(fun h => nomatch h), (fun ⟨s, hs, _⟩ => nomatch hs)⟩
    | float pr => exact ⟨(fun h => nomatch h), (fun ⟨s, hs, _⟩ => nomatch hs)⟩
    | pynone => exact ⟨(fun h => nomatch h), (fun ⟨s, hs, _⟩ => nomatch hs)⟩
    | list xs => exact ⟨(fun h => nomatch h), (fun ⟨s, hs, _⟩ => nomatch hs)⟩
    | dict kvs => exact ⟨(fun h => nomatch h), (fun ⟨s, hs, _⟩ => nomatch hs)⟩
  · intro s hv hnot
    subst hv
    rw [check_allowed_str, if_neg]
    intro hm
    exact hnot ((pyMem_format_iff s).mp hm)
  · intro hns
    cases v with
    | str s => exact absurd rfl (hns s)
    | int n => rfl
    | bool b => rfl
    | float pr => rfl
    | pynone => rfl
    | list xs => rfl
    | dict kvs => rfl

/-- C4, witness for the amended theorem: the lowercase tag `"int"` is
accepted. -/
theorem C4_witness :
    check_allowed (.str "int") (rules_allowed "format") = [] :=
  (C4_format_case_sensitive_membership (.str "int")).1.mpr
    ⟨"int", rfl, Or.inr (Or.inr (Or.inl rfl))⟩

/-- C5: the `remap` checker accepts a raw value iff it is a dict in which
every key and every value is a `str`/`int`/`float` instance (in Python a
`bool` is an `int` instance); a non-dict fails with `not a dictionary`,
and a dict with an offending pair fails with `not str, int or float`
together with every offending pair rendered as the string `key: value`. -/
theorem C5_remap_checker (v allowed : PyVal) :
    (check_remap v allowed = []
      ↔ ∃ kvs, v = .dict kvs ∧ ∀ kv ∈ kvs,
          kv.1.isStrIntFloat = true ∧ kv.2.isStrIntFloat = true)
    ∧ ((∀ kvs, v ≠ .dict kvs) →
        check_remap v allowed = [.str "not a dictionary"])
    ∧ (∀ kvs, v = .dict kvs →
        (kvs.filter fun kv => !kv.1.isStrIntFloat || !kv.2.isStrIntFloat) ≠ [] →
        check_remap v allowed
          = [.str "not str, int or float",
             .list ((kvs.filter
                 fun kv => !kv.1.isStrIntFloat || !kv.2.isStrIntFloat).map
               (fun kv => PyVal.str (pyStr kv.1 ++ ": " ++ pyStr kv.2)))]) := by
  refine ⟨?_, ?_, ?_⟩
  · cases v with
    | dict kvs =>
      constructor
      · intro h
        refine ⟨kvs, rfl, ?_⟩
        intro kv hkv
        by_contra hc
        have hpred : (!kv.1.isStrIntFloat || !kv.2.isStrIntFloat) = true := by
          rcases not_and_or.mp hc with h1 | h1
          · cases hb : kv.1.isStrIntFloat with
            | false => simp [hb]
            | true => exact absurd hb h1
          · cases hb : kv.2.isStrIntFloat with
            | false => simp [hb]
            | true => exact absurd hb h1
        have hmemf : kv ∈ kvs.filter
            (fun kv => !kv.1.isStrIntFloat || !kv.2.isStrIntFloat) :=
          List.mem_filter.mpr ⟨hkv, hpred⟩
        have hne : (kvs.filter
            fun kv => !kv.1.isStrIntFloat || !kv.2.isStrIntFloat) ≠ [] := by
          intro hnil
          rw [hnil] at hmemf
          cases hmemf
        rw [check_remap_dict_bad kvs allowed hne] at h
        exact absurd h (by simp)
      · rintro ⟨kvs', hkv, hall⟩
        injection hkv with hkv
        subst hkv
        refine check_remap_dict_ok _ _ (List.filter_eq_nil_iff.mpr ?_)
        intro kv hkv
        obtain ⟨h1, h2⟩ := hall kv hkv
        simp [h1, h2]
    | str s => exact ⟨(fun h => nomatch h), (fun ⟨kvs, hk, _⟩ => nomatch hk)⟩
    | int n => exact ⟨(fun h => nomatch h), (fun ⟨kvs, hk, _⟩ => nomatch hk)⟩
    | bool b => exact ⟨(fun h => nomatch h), (fun ⟨kvs, hk, _⟩ => nomatch hk)⟩
    | float pr => exact ⟨(fun h => nomatch h), (fun ⟨kvs, hk, _⟩ => nomatch hk)⟩
    | pynone => exact ⟨(fun h => nomatch h), (fun ⟨kvs, hk, _⟩ => nomatch hk)⟩
    | list xs => exact ⟨(fun h => nomatch h), (fun ⟨kvs, hk, _⟩ => nomatch hk)⟩
  · intro hnd
    cases v with
    | dict kvs => exact absurd rfl (hnd kvs)
    | str s => rfl
    | int n => rfl
    | bool b => rfl
    | float pr => rfl
    | pynone => rfl
    | list xs => rfl
  · intro kvs hv hbad
    subst hv
    exact check_remap_dict_bad kvs allowed hbad

/-- C5, witness: the scenario-3 mapping `{"US": 1, "Yes": "y"}` is
accepted. -/
theorem C5_witness :
    check_remap (.dict [(.str "US", .int 1), (.str "Yes", .str "y")])
      (rules_allowed "remap") = [] :=
  (C5_remap_checker (.dict [(.str "US", .int 1), (.str "Yes", .str "y")])
      (rules_allowed "remap")).1.mpr
    ⟨[(.str "US", .int 1), (.str "Yes", .str "y")], rfl, by decide⟩

/-- The one-variable collection of the C6 scenario. -/
def c6_value : PyVal := .dict [(.str "maximum", .int 1), (.str "minimum", .str "a")]

/-- The C6 scenario's collection: variable `age` with only the bad
`normalization` rule. -/
def c6_state : RulesCollection :=
  ⟨[("age", Rules.init [("normalization", c6_value)])], []⟩

/-- C6: checking `normalization: {maximum: 1, minimum: "a"}` yields the
`not numeric` error whose offending-keys payload is exactly
`["minimum"]`; dispatching it leaves the validated structure unchanged
and collects exactly that normalization record (bucket `edits`). -/
theorem C6_normalization_not_numeric_scenario :
    check_normalization c6_value (rules_allowed "normalization")
        = [.str "not numeric", .list [.str "minimum"]]
    ∧ (check_rule c6_state "age" "normalization" c6_value).variables_rules
        = c6_state.variables_rules
    ∧ (check_rule c6_state "age" "normalization" c6_value).rules_format_error
        = [⟨"age", "normalization", c6_value, "edits",
            .list [.str "not numeric", .list [.str "minimum"]]⟩] :=
  ⟨rfl, rfl, rfl⟩

/-- C7: rule-document discovery on a missing directory fails with the
`does not exist` error naming the path; on a directory without rule
documents it fails with the `empty` error naming the path; otherwise it
returns the discovered rule-document paths. -/
theorem C7_discovery_errors (p : String) (listing : Option (List String)) :
    (listing = Option.none →
      check_variables_rules_dir p listing
        = .error ("Input directory " ++ p ++ " does not exist"))
    ∧ (∀ entries, listing = some entries →
        (entries.filter isYmlFile = [] →
          check_variables_rules_dir p listing
            = .error ("Input directory " ++ p ++ " empty"))
        ∧ (entries.filter isYmlFile ≠ [] →
          check_variables_rules_dir p listing
            = .ok ((entries.filter isYmlFile).map (fun f => p ++ "/" ++ f)))) := by
  constructor
  · intro h; subst h; rfl
  · intro entries h
    subst h
    constructor
    · intro hnil
      unfold check_variables_rules_dir
      simp [hnil]
    · intro hne
      unfold check_variables_rules_dir
      have hmapne : (entries.filter isYmlFile).map (fun f => p ++ "/" ++ f)
          ≠ [] := by
        intro hh
        exact hne (List.map_eq_nil_iff.mp hh)
      simp [hmapne]

/-- C7, witness: a missing directory and a directory holding one rule
document. -/
theorem C7_witness :
    check_variables_rules_dir "rules" Option.none
        = .error "Input directory rules does not exist"
    ∧ check_variables_rules_dir "rules" (some ["age.yml"])
        = .ok ["rules/age.yml"] := by
  constructor
  · exact (C7_discovery_errors "rules" Option.none).1 rfl
  · exact ((C7_discovery_errors "rules" (some ["age.yml"])).2
      ["age.yml"] rfl).2 (by decide)

/-- The C9 collection: one variable with empty `validation` and
`normalization` rule values. -/
def c9_state : RulesCollection :=
  ⟨[("v", Rules.init [("validation", .dict []), ("normalization", .dict [])])], []⟩

/-- C9: the empty mapping is accepted by the `validation` and
`normalization` checkers, and a validation pass writes it into the
`edits` bucket of the validated structure with no error recorded. -/
theorem C9_empty_dict_accepted :
    check_validation (.dict []) (rules_allowed "validation") = []
    ∧ check_normalization (.dict []) (rules_allowed "normalization") = []
    ∧ slotOf (check_variables_rules c9_state ["v"]) "v" "edits" "validation"
        = some (.dict [])
    ∧ slotOf (check_variables_rules c9_state ["v"]) "v" "edits" "normalization"
        = some (.dict [])
    ∧ (check_variables_rules c9_state ["v"]).rules_format_error = [] :=
  ⟨rfl, rfl, rfl, rfl, rfl⟩

/-- C10: because Python's `bool` is a subtype of `int`, booleans pass the
`isinstance` tests of the `remap` checker (as keys and as values) and of
the `normalization` checker (`{maximum: true}` is numeric). -/
theorem C10_bool_subtype_int :
    check_remap (.dict [(.bool true, .int 1), (.str "US", .bool false)])
        (rules_allowed "remap") = []
    ∧ check_normalization (.dict [(.str "maximum", .bool true)])
        (rules_allowed "normalization") = []
    ∧ PyVal.isStrIntFloat (.bool true) = true
    ∧ PyVal.isIntFloat (.bool true) = true :=
  ⟨rfl, rfl, rfl, rfl⟩

/-- C1: for a recognized rule kind whose checker accepts the raw value,
the dispatcher writes that raw value unchanged into the variable's
validated structure at the rule's bucket, records no error, and the
kind-to-bucket table is exactly the one the claim lists. -/
theorem C1_success_writes_bucket (st : RulesCollection) (var rule : String)
    (v : PyVal) (mt : (PyVal → PyVal → List PyVal) × String)
    (hmt : rule_type_map rule = some mt)
    (hok : mt.1 v (rules_allowed rule) = [])
    {rv : Rules} (hv : findA st.variables_rules var = some rv)
    {bl : List (PyVal × PyVal)}
    (hb : dictGet rv.rules (.str mt.2) = some (.dict bl)) :
    slotOf (check_rule st var rule v) var mt.2 rule = some v
    ∧ (check_rule st var rule v).rules_format_error = st.rules_format_error
    ∧ (rule_type_map "normalization").map Prod.snd = some "edits"
    ∧ (rule_type_map "validation").map Prod.snd = some "edits"
    ∧ (rule_type_map "remap").map Prod.snd = some "edits"
    ∧ (rule_type_map "expected").map Prod.snd = some "lookups"
    ∧ (rule_type_map "ontology").map Prod.snd = some "lookups"
    ∧ (rule_type_map "blank").map Prod.snd = some "allowed"
    ∧ (rule_type_map "missing").map Prod.snd = some "allowed"
    ∧ (rule_type_map "format").map Prod.snd = some "allowed" := by
  refine ⟨?_, ?_, rfl, rfl, rfl, rfl, rfl, rfl, rfl, rfl⟩
  · unfold slotOf
    rw [check_rule_vr_ok hmt hok, findA_updateVar_eq, hv]
    simp only [Option.map, Option.bind]
    exact storeRule_get2_eq hb rule v
  · rw [check_rule_log]
    have hre : ruleErrors var rule v = [] := by
      unfold ruleErrors
      rw [hmt]
      simp [hok]
    rw [hre, List.append_nil]

/-- The C1 witness collection: variable `country` with a `format` rule. -/
def c1_state : RulesCollection :=
  ⟨[("country", Rules.init [("format", .str "str")])], []⟩

/-- C1, witness: the accepted `format: str` value lands verbatim in
`allowed.format` of variable `country` with an empty ErrorLog. -/
theorem C1_witness :
    slotOf (check_rule c1_state "country" "format" (.str "str"))
        "country" "allowed" "format" = some (.str "str")
    ∧ (check_rule c1_state "country" "format" (.str "str")).rules_format_error
        = [] := by
  have h := C1_success_writes_bucket c1_state "country" "format" (.str "str")
    (check_allowed, "allowed") rfl rfl rfl rfl
  exact ⟨h.1, h.2.1⟩

/-- The soundness invariant of C2: every value held in a validated slot
is either that slot's pristine default or a value that its rule kind's
checker accepts (and the slot is the rule kind's own bucket). -/
def SoundVars (vr : List (String × Rules)) : Prop :=
  ∀ kr ∈ vr, ∀ b r x, get2 (kr.2).rules b r = some x →
    get2 rulesDefault b r = some x
    ∨ ∃ mt, rule_type_map r = some mt ∧ mt.2 = b
        ∧ mt.1 x (rules_allowed r) = []

lemma mem_updateVar {vr : List (String × Rules)} {var : String}
    {f : Rules → Rules} {kr' : String × Rules}
    (h : kr' ∈ updateVar vr var f) :
    ∃ kr ∈ vr, kr'.2 = kr.2 ∨ kr'.2 = f kr.2 := by
  induction vr with
  | nil => cases h
  | cons kr0 rest ih =>
    obtain ⟨k, r⟩ := kr0
    rw [updateVar] at h
    rcases List.mem_cons.mp h with h | h
    · by_cases hk : k = var
      · rw [if_pos hk] at h
        exact ⟨(k, r), List.mem_cons_self _ _, by rw [h]; exact Or.inr rfl⟩
      · rw [if_neg hk] at h
        exact ⟨(k, r), List.mem_cons_self _ _, by rw [h]; exact Or.inl rfl⟩
    · obtain ⟨kr, hkr, hor⟩ := ih h
      exact ⟨kr, List.mem_cons_of_mem _ hkr, hor⟩

lemma sound_storeRule {d : PyVal} {b r : String} {x v : PyVal}
    {rule : String} {mt : (PyVal → PyVal → List PyVal) × String}
    (hmt : rule_type_map rule = some mt)
    (he : mt.1 v (rules_allowed rule) = [])
    (hold : ∀ b' r' x', get2 d b' r' = some x' →
      get2 rulesDefault b' r' = some x'
      ∨ ∃ mt', rule_type_map r' = some mt' ∧ mt'.2 = b'
          ∧ mt'.1 x' (rules_allowed r') = [])
    (hslot : get2 (storeRule d mt.2 rule v) b r = some x) :
    get2 rulesDefault b r = some x
    ∨ ∃ mt', rule_type_map r = some mt' ∧ mt'.2 = b
        ∧ mt'.1 x (rules_allowed r) = [] := by
  by_cases hbr : mt.2 = b ∧ rule = r
  · obtain ⟨hb, hr⟩ := hbr
    subst hb; subst hr
    cases hd : dictGet d (.str mt.2) with
    | none =>
      rw [storeRule, hd] at hslot
      exact hold _ _ _ hslot
    | some inner =>
      cases inner with
      | dict il =>
        have heq := storeRule_get2_eq hd rule v
        rw [heq] at hslot
        injection hslot with hslot
        subst hslot
        exact Or.inr ⟨mt, hmt, rfl, he⟩
      | str s =>
        simp only [storeRule, hd] at hslot
        rw [show dictSet (PyVal.str s) (PyVal.str rule) v = PyVal.str s
            from rfl, dictSet_self hd] at hslot
        exact hold _ _ _ hslot
      | int n =>
        simp only [storeRule, hd] at hslot
        rw [show dictSet (PyVal.int n) (PyVal.str rule) v = PyVal.int n
            from rfl, dictSet_self hd] at hslot
        exact hold _ _ _ hslot
      | bool bb =>
        simp only [storeRule, hd] at hslot
        rw [show dictSet (PyVal.bool bb) (PyVal.str rule) v = PyVal.bool bb
            from rfl, dictSet_self hd] at hslot
        exact hold _ _ _ hslot
      | float pr =>
        simp only [storeRule, hd] at hslot
        rw [show dictSet (PyVal.float pr) (PyVal.str rule) v = PyVal.float pr
            from rfl, dictSet_self hd] at hslot
        exact hold _ _ _ hslot
      | pynone =>
        simp only [storeRule, hd] at hslot
        rw [show dictSet PyVal.pynone (PyVal.str rule) v = PyVal.pynone
            from rfl, dictSet_self hd] at hslot
        exact hold _ _ _ hslot
      | list xs =>
        simp only [storeRule, hd] at hslot
        rw [show dictSet (PyVal.list xs) (PyVal.str rule) v = PyVal.list xs
            from rfl, dictSet_self hd] at hslot
        exact hold _ _ _ hslot
  · have hne : mt.2 ≠ b ∨ rule ≠ r := by
      by_contra hcc
      push_neg at hcc
      exact hbr ⟨hcc.1, hcc.2⟩
    rw [storeRule_get2_ne hne] at hslot
    exact hold _ _ _ hslot

lemma sound_check_rule (st : RulesCollection) (var rule : String) (v : PyVal)
    (hs : SoundVars st.variables_rules) :
    SoundVars ((check_rule st var rule v).variables_rules) := by
  cases hmt : rule_type_map rule with
  | none => rw [check_rule_vr_none hmt]; exact hs
  | some mt =>
    by_cases he : mt.1 v (rules_allowed rule) = []
    · rw [check_rule_vr_ok hmt he]
      intro kr' hkr' b r x hslot
      obtain ⟨kr, hkr, hor⟩ := mem_updateVar hkr'
      rcases hor with hor | hor
      · rw [hor] at hslot
        exact hs kr hkr b r x hslot
      · rw [hor] at hslot
        exact sound_storeRule hmt he (fun b' r' x' h' => hs kr hkr b' r' x' h')
          hslot
    · rw [check_rule_vr_fail hmt he]
      exact hs

lemma sound_inner_fold (var : String) (ps : List (String × PyVal)) :
    ∀ st : RulesCollection, SoundVars st.variables_rules →
      SoundVars ((ps.foldl (fun s2 p => check_rule s2 var p.1 p.2)
        st).variables_rules) := by
  induction ps with
  | nil => intro st hs; exact hs
  | cons p rest ih =>
    intro st hs
    simp only [List.foldl_cons]
    exact ih _ (sound_check_rule st var p.1 p.2 hs)

lemma sound_pass (focus : List String) :
    ∀ st : RulesCollection, SoundVars st.variables_rules →
      SoundVars ((check_variables_rules st focus).variables_rules) := by
  induction focus with
  | nil => intro st hs; exact hs
  | cons var rest ih =>
    intro st hs
    rw [check_variables_rules_cons]
    cases hf : findA st.variables_rules var with
    | none => exact ih st hs
    | some rv => exact ih _ (sound_inner_fold var rv.parsed_rules st hs)

lemma sound_of_default {vr : List (String × Rules)}
    (h : ∀ kr ∈ vr, kr.2.rules = rulesDefault) : SoundVars vr := by
  intro kr hkr b r x hx
  rw [h kr hkr] at hx
  exact Or.inl hx

/-- C2: dispatching a rule kind whose checker rejects the raw value
leaves the whole variable map (hence every validated structure, including
the failing rule's default slot) unchanged; a full validation pass
preserves the invariant that every validated slot holds either its
pristine default or a checker-accepted value, and establishes it from the
freshly-initialized default structures. -/
theorem C2_failed_rule_leaves_structure (st : RulesCollection)
    (var rule : String) (v : PyVal) (focus : List String)
    (mt : (PyVal → PyVal → List PyVal) × String)
    (hmt : rule_type_map rule = some mt)
    (hfail : mt.1 v (rules_allowed rule) ≠ []) :
    (check_rule st var rule v).variables_rules = st.variables_rules
    ∧ (SoundVars st.variables_rules →
        SoundVars ((check_variables_rules st focus).variables_rules))
    ∧ ((∀ kr ∈ st.variables_rules, kr.2.rules = rulesDefault) →
        SoundVars ((check_variables_rules st focus).variables_rules)) :=
  ⟨check_rule_vr_fail hmt hfail st var,
   fun hs => sound_pass focus st hs,
   fun hd => sound_pass focus st (sound_of_default hd)⟩

/-- The C2 witness collection: variable `v` with a bad `missing` rule. -/
def c2_state : RulesCollection :=
  ⟨[("v", Rules.init [("missing", .int 0)])], []⟩

/-- C2, witness: dispatching the rejected `missing: 0` leaves the
variable map unchanged. -/
theorem C2_witness :
    (check_rule c2_state "v" "missing" (.int 0)).variables_rules
      = c2_state.variables_rules :=
  (C2_failed_rule_leaves_structure c2_state "v" "missing" (.int 0) ["v"]
    (check_allowed, "allowed") rfl (fun h => nomatch h)).1

/-- C3: in batch mode the dispatcher returns rather than raising: the
pass appends to the ErrorLog exactly the structured records of all
failures (in dispatch order), and every checker failure of every focus
variable appears in the final log with its variable, rule kind, raw
value, bucket and sub-code detail — an unrecognized rule kind with an
empty bucket and cause `rule not recognized`. -/
theorem C3_batch_accumulates_errors (st : RulesCollection)
    (focus : List String) :
    (check_variables_rules st focus).rules_format_error
      = st.rules_format_error
        ++ focusErrors (parsedProj st.variables_rules) focus
    ∧ ∀ var ∈ focus, ∀ rv, findA st.variables_rules var = some rv →
        ∀ p ∈ rv.parsed_rules,
          (rule_type_map p.1 = Option.none →
            (⟨var, p.1, p.2, "", .str "rule not recognized"⟩ : ErrorRecord)
              ∈ (check_variables_rules st focus).rules_format_error)
          ∧ (∀ mt : (PyVal → PyVal → List PyVal) × String,
              rule_type_map p.1 = some mt →
              mt.1 p.2 (rules_allowed p.1) ≠ [] →
              (⟨var, p.1, p.2, mt.2,
                  .list (mt.1 p.2 (rules_allowed p.1))⟩ : ErrorRecord)
                ∈ (check_variables_rules st focus).rules_format_error) := by
  have hlog := check_variables_rules_log focus st
  refine ⟨hlog, ?_⟩
  intro var hvar rv hrv p hp
  have hproj : findA (parsedProj st.variables_rules) var
      = some rv.parsed_rules := by
    rw [findA_parsedProj, hrv]; rfl
  constructor
  · intro hmt
    have he : (⟨var, p.1, p.2, "", .str "rule not recognized"⟩ : ErrorRecord)
        ∈ ruleErrors var p.1 p.2 := by
      unfold ruleErrors
      rw [hmt]
      exact List.mem_singleton.mpr rfl
    rw [hlog]
    exact List.mem_append_right _
      (mem_focusErrors hvar hproj (mem_varErrors hp he))
  · intro mt hmt hfail
    have hlen : ¬ (mt.1 p.2 (rules_allowed p.1)).length = 0 := by
      simpa [List.length_eq_zero] using hfail
    have he : (⟨var, p.1, p.2, mt.2,
        .list (mt.1 p.2 (rules_allowed p.1))⟩ : ErrorRecord)
        ∈ ruleErrors var p.1 p.2 := by
      unfold ruleErrors
      rw [hmt]
      simp [hlen]
    rw [hlog]
    exact List.mem_append_right _
      (mem_focusErrors hvar hproj (mem_varErrors hp he))

/-- The C3 witness collection: variable `v` with a bad `missing` rule and
an unrecognized rule kind. -/
def c3_state : RulesCollection :=
  ⟨[("v", Rules.init [("missing", .int 0), ("bad_rule", .str "x")])], []⟩

/-- C3, witness: both the `missing` failure record and the
`rule not recognized` record of the unrecognized kind end up in the
ErrorLog of the pass. -/
theorem C3_witness :
    (⟨"v", "missing", .int 0, "allowed",
        .list [.str "not a string"]⟩ : ErrorRecord)
      ∈ (check_variables_rules c3_state ["v"]).rules_format_error
    ∧ (⟨"v", "bad_rule", .str "x", "",
        .str "rule not recognized"⟩ : ErrorRecord)
      ∈ (check_variables_rules c3_state ["v"]).rules_format_error := by
  have h := (C3_batch_accumulates_errors c3_state ["v"]).2 "v"
    (List.mem_singleton.mpr rfl)
    (Rules.init [("missing", .int 0), ("bad_rule", .str "x")]) rfl
  constructor
  · exact (h ("missing", .int 0) (List.mem_cons_self _ _)).2
      (check_allowed, "allowed") rfl (fun hh => nomatch hh)
  · exact (h ("bad_rule", .str "x")
      (List.mem_cons_of_mem _ (List.mem_cons_self _ _))).1 rfl

/-! ## Machinery for the second-pass (idempotence) analysis -/

/-- A validated structure offering its three buckets as dicts, as the
default structure of `Rules.__init__` does and as every store preserves. -/
def HasBuckets (d : PyVal) : Prop :=
  (∃ bl, dictGet d (.str "edits") = some (.dict bl))
  ∧ (∃ bl, dictGet d (.str "lookups") = some (.dict bl))
  ∧ (∃ bl, dictGet d (.str "allowed") = some (.dict bl))

lemma rule_type_map_bucket {r : String}
    {mt : (PyVal → PyVal → List PyVal) × String}
    (h : rule_type_map r = some mt) :
    mt.2 = "edits" ∨ mt.2 = "lookups" ∨ mt.2 = "allowed" := by
  unfold rule_type_map at h
  split at h
  all_goals first
    | exact Option.noConfusion h
    | (injection h with h; subst h; simp)

lemma hasBuckets_storeRule {d : PyVal} (h : HasBuckets d) (b r : String)
    (v : PyVal) : HasBuckets (storeRule d b r v) := by
  obtain ⟨⟨e, he⟩, ⟨l, hl⟩, ⟨a, ha⟩⟩ := h
  unfold storeRule
  cases hd : dictGet d (.str b) with
  | none => exact ⟨⟨e, he⟩, ⟨l, hl⟩, ⟨a, ha⟩⟩
  | some inner =>
    obtain ⟨dl, rfl⟩ := dictGet_isDict hd
    refine ⟨?_, ?_, ?_⟩
    · by_cases hb : b = "edits"
      · subst hb
        rw [he] at hd
        injection hd with hd
        subst hd
        exact ⟨setA e (.str r) v, dictGet_dictSet_eq dl "edits" _⟩
      · rw [dictGet_dictSet_ne _ b "edits" hb]
        exact ⟨e, he⟩
    · by_cases hb : b = "lookups"
      · subst hb
        rw [hl] at hd
        injection hd with hd
        subst hd
        exact ⟨setA l (.str r) v, dictGet_dictSet_eq dl "lookups" _⟩
      · rw [dictGet_dictSet_ne _ b "lookups" hb]
        exact ⟨l, hl⟩
    · by_cases hb : b = "allowed"
      · subst hb
        rw [ha] at hd
        injection hd with hd
        subst hd
        exact ⟨setA a (.str r) v, dictGet_dictSet_eq dl "allowed" _⟩
      · rw [dictGet_dictSet_ne _ b "allowed" hb]
        exact ⟨a, ha⟩

lemma buckets_check_rule {st : RulesCollection} (var rule : String)
    (v : PyVal)
    (h : ∀ kr ∈ st.variables_rules, HasBuckets kr.2.rules) :
    ∀ kr ∈ (check_rule st var rule v).variables_rules, HasBuckets kr.2.rules := by
  cases hmt : rule_type_map rule with
  | none => rw [check_rule_vr_none hmt]; exact h
  | some mt =>
    by_cases he : mt.1 v (rules_allowed rule) = []
    · rw [check_rule_vr_ok hmt he]
      intro kr' hkr'
      obtain ⟨kr, hkr, hor⟩ := mem_updateVar hkr'
      rcases hor with hor | hor
      · rw [hor]; exact h kr hkr
      · rw [hor]; exact hasBuckets_storeRule (h kr hkr) mt.2 rule v
    · rw [check_rule_vr_fail hmt he]; exact h

lemma parsednd_check_rule {st : RulesCollection} (var rule : String)
    (v : PyVal)
    (h : ∀ kr ∈ st.variables_rules, (kr.2.parsed_rules.map Prod.fst).Nodup) :
    ∀ kr ∈ (check_rule st var rule v).variables_rules,
      (kr.2.parsed_rules.map Prod.fst).Nodup := by
  cases hmt : rule_type_map rule with
  | none => rw [check_rule_vr_none hmt]; exact h
  | some mt =>
    by_cases he : mt.1 v (rules_allowed rule) = []
    · rw [check_rule_vr_ok hmt he]
      intro kr' hkr'
      obtain ⟨kr, hkr, hor⟩ := mem_updateVar hkr'
      rcases hor with hor | hor
      · rw [hor]; exact h kr hkr
      · rw [hor]; exact h kr hkr
    · rw [check_rule_vr_fail hmt he]; exact h

lemma buckets_inner_fold (var : String) (ps : List (String × PyVal)) :
    ∀ st : RulesCollection,
      (∀ kr ∈ st.variables_rules, HasBuckets kr.2.rules) →
      ∀ kr ∈ ((ps.foldl (fun s2 p => check_rule s2 var p.1 p.2)
          st).variables_rules), HasBuckets kr.2.rules := by
  induction ps with
  | nil => intro st h; exact h
  | cons p rest ih =>
    intro st h
    simp only [List.foldl_cons]
    exact ih _ (buckets_check_rule var p.1 p.2 h)

lemma parsednd_inner_fold (var : String) (ps : List (String × PyVal)) :
    ∀ st : RulesCollection,
      (∀ kr ∈ st.variables_rules, (kr.2.parsed_rules.map Prod.fst).Nodup) →
      ∀ kr ∈ ((ps.foldl (fun s2 p => check_rule s2 var p.1 p.2)
          st).variables_rules), (kr.2.parsed_rules.map Prod.fst).Nodup := by
  induction ps with
  | nil => intro st h; exact h
  | cons p rest ih =>
    intro st h
    simp only [List.foldl_cons]
    exact ih _ (parsednd_check_rule var p.1 p.2 h)

lemma inner_fold_store (var : String) (ps : List (String × PyVal)) :
    ∀ (st : RulesCollection) (rv0 : Rules),
      findA st.variables_rules var = some rv0 →
      (st.variables_rules.map Prod.fst).Nodup →
      (ps.map Prod.fst).Nodup →
      HasBuckets rv0.rules →
      ∃ rv1 : Rules,
        findA ((ps.foldl (fun s2 p => check_rule s2 var p.1 p.2)
            st).variables_rules) var = some rv1
        ∧ rv1.parsed_rules = rv0.parsed_rules
        ∧ HasBuckets rv1.rules
        ∧ (∀ p ∈ ps, ∀ mt : (PyVal → PyVal → List PyVal) × String,
            rule_type_map p.1 = some mt →
            mt.1 p.2 (rules_allowed p.1) = [] →
            get2 rv1.rules mt.2 p.1 = some p.2)
        ∧ (∀ b r, r ∉ ps.map Prod.fst →
            get2 rv1.rules b r = get2 rv0.rules b r) := by
  induction ps with
  | nil =>
    intro st rv0 hv hknd hpnd hbk
    exact ⟨rv0, hv, rfl, hbk,
      (fun p hp => absurd hp (List.not_mem_nil p)), (fun b r _ => rfl)⟩
  | cons p rest ih =>
    intro st rv0 hv hknd hpnd hbk
    simp only [List.map_cons, List.nodup_cons] at hpnd
    simp only [List.foldl_cons]
    cases hmt : rule_type_map p.1 with
    | none =>
      have hvr := check_rule_vr_none hmt st var p.2
      obtain ⟨rv1, h1, h2, h3, h4, h5⟩ := ih (check_rule st var p.1 p.2) rv0
        (by rw [hvr]; exact hv) (by rw [hvr]; exact hknd) hpnd.2 hbk
      refine ⟨rv1, h1, h2, h3, ?_, ?_⟩
      · intro q hq mt' hqmt hqok
        rcases List.mem_cons.mp hq with rfl | hq
        · rw [hmt] at hqmt
          exact Option.noConfusion hqmt
        · exact h4 q hq mt' hqmt hqok
      · intro b r hr
        exact h5 b r (fun hh => hr (List.mem_cons_of_mem _ hh))
    | some mt =>
      by_cases he : mt.1 p.2 (rules_allowed p.1) = []
      · have hvr := check_rule_vr_ok hmt he st var
        have hv1 : findA (check_rule st var p.1 p.2).variables_rules var
            = some { rv0 with rules := storeRule rv0.rules mt.2 p.1 p.2 } := by
          rw [hvr, findA_updateVar_eq, hv]
          rfl
        have hk1 : ((check_rule st var p.1 p.2).variables_rules.map
            Prod.fst).Nodup := by
          rw [check_rule_keys]
          exact hknd
        have hbk1 : HasBuckets
            ({ rv0 with rules := storeRule rv0.rules mt.2 p.1 p.2 } :
              Rules).rules :=
          hasBuckets_storeRule hbk mt.2 p.1 p.2
        obtain ⟨rv1, h1, h2, h3, h4, h5⟩ := ih (check_rule st var p.1 p.2)
          { rv0 with rules := storeRule rv0.rules mt.2 p.1 p.2 }
          hv1 hk1 hpnd.2 hbk1
        have hbdict : ∃ bl, dictGet rv0.rules (.str mt.2)
            = some (.dict bl) := by
          rcases rule_type_map_bucket hmt with hb | hb | hb <;> rw [hb]
          · exact hbk.1
          · exact hbk.2.1
          · exact hbk.2.2
        obtain ⟨bl, hbl⟩ := hbdict
        refine ⟨rv1, h1, h2, h3, ?_, ?_⟩
        · intro q hq mt' hqmt hqok
          rcases List.mem_cons.mp hq with rfl | hq
          · have hmm : mt' = mt := by
              rw [hmt] at hqmt
              exact (Option.some.inj hqmt).symm
            rw [hmm, h5 mt.2 q.1 hpnd.1]
            exact storeRule_get2_eq hbl q.1 q.2
          · exact h4 q hq mt' hqmt hqok
        · intro b r hr
          have hr2 : r ∉ rest.map Prod.fst :=
            fun hh => hr (List.mem_cons_of_mem _ hh)
          have hrp : r ≠ p.1 := by
            intro hh
            exact hr (by rw [hh]; simp)
          rw [h5 b r hr2]
          exact storeRule_get2_ne (Or.inr (fun hh => hrp hh.symm)) p.2
      · have hvr := check_rule_vr_fail hmt he st var
        obtain ⟨rv1, h1, h2, h3, h4, h5⟩ := ih (check_rule st var p.1 p.2) rv0
          (by rw [hvr]; exact hv) (by rw [hvr]; exact hknd) hpnd.2 hbk
        refine ⟨rv1, h1, h2, h3, ?_, ?_⟩
        · intro q hq mt' hqmt hqok
          rcases List.mem_cons.mp hq with rfl | hq
          · have hmm : mt' = mt := by
              rw [hmt] at hqmt
              exact (Option.some.inj hqmt).symm
            rw [hmm] at hqok
            exact absurd hqok he
          · exact h4 q hq mt' hqmt hqok
        · intro b r hr
          exact h5 b r (fun hh => hr (List.mem_cons_of_mem _ hh))

lemma inner_fold_other (var : String) (ps : List (String × PyVal)) :
    ∀ (st : RulesCollection) (w : String), w ≠ var →
      findA ((ps.foldl (fun s2 p => check_rule s2 var p.1 p.2)
          st).variables_rules) w = findA st.variables_rules w := by
  induction ps with
  | nil => intro st w hw; rfl
  | cons p rest ih =>
    intro st w hw
    simp only [List.foldl_cons]
    rw [ih _ w hw]
    cases hmt : rule_type_map p.1 with
    | none => rw [check_rule_vr_none hmt]
    | some mt =>
      by_cases he : mt.1 p.2 (rules_allowed p.1) = []
      · rw [check_rule_vr_ok hmt he, findA_updateVar_ne _ _ _ hw]
      · rw [check_rule_vr_fail hmt he]

lemma mem_of_findA {α : Type} {vr : List (String × α)} {v : String} {rv : α}
    (h : findA vr v = some rv) : (v, rv) ∈ vr := by
  induction vr with
  | nil => cases h
  | cons kr rest ih =>
    obtain ⟨k, r⟩ := kr
    by_cases hk : k = v
    · subst hk
      simp only [findA, if_pos rfl] at h
      injection h with h
      subst h
      exact List.mem_cons_self _ _
    · simp only [findA, hk, if_false] at h
      exact List.mem_cons_of_mem _ (ih h)

/-- A container all of whose checker-accepted parsed rules are already
stored in their buckets — the state every container reaches after one
validation pass over it. -/
def VarValidated (rv : Rules) : Prop :=
  ∀ p ∈ rv.parsed_rules, ∀ mt : (PyVal → PyVal → List PyVal) × String,
    rule_type_map p.1 = some mt → mt.1 p.2 (rules_allowed p.1) = [] →
    get2 rv.rules mt.2 p.1 = some p.2

lemma pass_validated (focus : List String) :
    ∀ st : RulesCollection,
      (st.variables_rules.map Prod.fst).Nodup →
      (∀ kr ∈ st.variables_rules, (kr.2.parsed_rules.map Prod.fst).Nodup) →
      (∀ kr ∈ st.variables_rules, HasBuckets kr.2.rules) →
      (∀ w, w ∉ focus →
        findA ((check_variables_rules st focus).variables_rules) w
          = findA st.variables_rules w)
      ∧ (∀ var ∈ focus, ∀ rv1,
          findA ((check_variables_rules st focus).variables_rules) var
            = some rv1 → VarValidated rv1) := by
  induction focus with
  | nil =>
    intro st h1 h2 h3
    exact ⟨(fun w _ => rfl), (fun var hv => absurd hv (List.not_mem_nil var))⟩
  | cons var rest ih =>
    intro st h1 h2 h3
    rw [check_variables_rules_cons]
    cases hf : findA st.variables_rules var with
    | none =>
      obtain ⟨ihf, ihv⟩ := ih st h1 h2 h3
      constructor
      · intro w hw
        exact ihf w (fun hh => hw (List.mem_cons_of_mem _ hh))
      · intro v hv rv1 hrv1
        rcases List.mem_cons.mp hv with rfl | hv
        · by_cases hvr : v ∈ rest
          · exact ihv v hvr rv1 hrv1
          · rw [ihf v hvr, hf] at hrv1
            exact Option.noConfusion hrv1
        · exact ihv v hv rv1 hrv1
    | some rv0 =>
      have hk1 : (((rv0.parsed_rules.foldl
          (fun s2 p => check_rule s2 var p.1 p.2)
          st).variables_rules).map Prod.fst).Nodup := by
        rw [foldl_check_rule_keys]
        exact h1
      have hp1 := parsednd_inner_fold var rv0.parsed_rules st h2
      have hb1 := buckets_inner_fold var rv0.parsed_rules st h3
      obtain ⟨ihf, ihv⟩ := ih _ hk1 hp1 hb1
      have hnd0 : (rv0.parsed_rules.map Prod.fst).Nodup :=
        h2 (var, rv0) (mem_of_findA hf)
      have hbk0 : HasBuckets rv0.rules := h3 (var, rv0) (mem_of_findA hf)
      obtain ⟨rv1, hfind1, hparsed1, hbk1', hstored, hframe⟩ :=
        inner_fold_store var rv0.parsed_rules st rv0 hf h1 hnd0 hbk0
      constructor
      · intro w hw
        have hw1 : w ≠ var := fun hh => hw (by rw [hh]; simp)
        have hw2 : w ∉ rest := fun hh => hw (List.mem_cons_of_mem _ hh)
        rw [ihf w hw2]
        exact inner_fold_other var rv0.parsed_rules st w hw1
      · intro v hv rv2 hrv2
        rcases List.mem_cons.mp hv with rfl | hv
        · by_cases hvr : v ∈ rest
          · exact ihv v hvr rv2 hrv2
          · rw [ihf v hvr, hfind1] at hrv2
            injection hrv2 with hrv2
            subst hrv2
            intro p hp mt hpmt hpok
            rw [hparsed1] at hp
            exact hstored p hp mt hpmt hpok
        · exact ihv v hv rv2 hrv2

lemma inner_replay (var : String) (ps : List (String × PyVal)) :
    ∀ (st : RulesCollection) (rv : Rules),
      findA st.variables_rules var = some rv →
      (st.variables_rules.map Prod.fst).Nodup →
      (∀ p ∈ ps, ∀ mt : (PyVal → PyVal → List PyVal) × String,
        rule_type_map p.1 = some mt → mt.1 p.2 (rules_allowed p.1) = [] →
        get2 rv.rules mt.2 p.1 = some p.2) →
      ((ps.foldl (fun s2 p => check_rule s2 var p.1 p.2)
          st).variables_rules) = st.variables_rules := by
  induction ps with
  | nil => intro st rv _ _ _; rfl
  | cons p rest2 ih =>
    intro st rv hv hknd hstored
    simp only [List.foldl_cons]
    have hstep : (check_rule st var p.1 p.2).variables_rules
        = st.variables_rules := by
      cases hmt : rule_type_map p.1 with
      | none => exact check_rule_vr_none hmt st var p.2
      | some mt =>
        by_cases he : mt.1 p.2 (rules_allowed p.1) = []
        · rw [check_rule_vr_ok hmt he]
          apply updateVar_self st.variables_rules var _ hknd hv
          have hsl := hstored p (List.mem_cons_self _ _) mt hmt he
          show { rv with rules := storeRule rv.rules mt.2 p.1 p.2 } = rv
          rw [storeRule_self hsl]
        · exact check_rule_vr_fail hmt he st var
    rw [ih (check_rule st var p.1 p.2) rv (by rw [hstep]; exact hv)
      (by rw [hstep]; exact hknd)
      (fun q hq => hstored q (List.mem_cons_of_mem _ hq)), hstep]

lemma pass_replay (focus : List String) :
    ∀ st : RulesCollection,
      (st.variables_rules.map Prod.fst).Nodup →
      (∀ var ∈ focus, ∀ rv, findA st.variables_rules var = some rv →
        VarValidated rv) →
      (check_variables_rules st focus).variables_rules
        = st.variables_rules := by
  induction focus with
  | nil => intro st _ _; rfl
  | cons var rest ih =>
    intro st hknd hval
    rw [check_variables_rules_cons]
    cases hf : findA st.variables_rules var with
    | none =>
      exact ih st hknd
        (fun v hv rv h => hval v (List.mem_cons_of_mem _ hv) rv h)
    | some rv =>
      have hrep := inner_replay var rv.parsed_rules st rv hf hknd
        (fun p hp mt h1 h2 =>
          hval var (List.mem_cons_self _ _) rv hf p hp mt h1 h2)
      rw [ih _ (by rw [hrep]; exact hknd)
        (fun v hv rv2 h => hval v (List.mem_cons_of_mem _ hv) rv2
          (by rw [hrep] at h; exact h)), hrep]

lemma RulesCollection.eq_of_parts {a b : RulesCollection}
    (h1 : a.variables_rules = b.variables_rules)
    (h2 : a.rules_format_error = b.rules_format_error) : a = b := by
  cases a
  cases b
  cases h1
  cases h2
  rfl

/-- The C8 counterexample collection: one variable whose only rule fails
its checker. -/
def c8_state : RulesCollection :=
  ⟨[("v", Rules.init [("missing", .int 0)])], []⟩

/-- C8, counterexample: re-running the validation pass re-collects every
failure, so the ErrorLog after the second pass differs from the ErrorLog
after the first pass (2 records against 1), refuting the claimed
unconditional idempotence. -/
theorem C8_counterexample_duplicated_errors :
    (check_variables_rules (check_variables_rules c8_state ["v"])
        ["v"]).rules_format_error
      ≠ (check_variables_rules c8_state ["v"]).rules_format_error := by
  intro h
  exact absurd (congrArg List.length h) (by decide)

/-- C8, amended: a second identical pass leaves every variable's
validated rules structure unchanged, but appends a second copy of the
pass's error records to the ErrorLog; the whole state (structures and
ErrorLog) is unchanged when the pass records no errors.  (Hypotheses: the
collection is dict-shaped, as the program always builds it — unique
variable names, unique rule-kind names per document, and bucketed
validated structures.) -/
theorem C8_second_pass_characterization (st : RulesCollection)
    (focus : List String)
    (hkeys : (st.variables_rules.map Prod.fst).Nodup)
    (hparsed : ∀ kr ∈ st.variables_rules,
      (kr.2.parsed_rules.map Prod.fst).Nodup)
    (hbuckets : ∀ kr ∈ st.variables_rules, HasBuckets kr.2.rules) :
    (check_variables_rules (check_variables_rules st focus)
        focus).variables_rules
      = (check_variables_rules st focus).variables_rules
    ∧ (check_variables_rules (check_variables_rules st focus)
        focus).rules_format_error
      = (check_variables_rules st focus).rules_format_error
        ++ focusErrors (parsedProj st.variables_rules) focus
    ∧ (focusErrors (parsedProj st.variables_rules) focus = [] →
        check_variables_rules (check_variables_rules st focus) focus
          = check_variables_rules st focus) := by
  have hk1 : (((check_variables_rules st focus).variables_rules).map
      Prod.fst).Nodup := by
    rw [check_variables_rules_keys]
    exact hkeys
  have hval := (pass_validated focus st hkeys hparsed hbuckets).2
  have hvreq := pass_replay focus (check_variables_rules st focus) hk1 hval
  have hlog := check_variables_rules_log focus (check_variables_rules st focus)
  have hproj := check_variables_rules_parsedProj focus st
  refine ⟨hvreq, by rw [hlog, hproj], ?_⟩
  intro hz
  apply RulesCollection.eq_of_parts hvreq
  rw [hlog, hproj, hz, List.append_nil]

/-- The C8 witness collection: one variable whose only rule passes. -/
def c8w_state : RulesCollection :=
  ⟨[("v", Rules.init [("format", .str "int")])], []⟩

/-- C8, witness for the amended theorem: on an error-free collection the
second pass changes nothing at all. -/
theorem C8_witness :
    check_variables_rules (check_variables_rules c8w_state ["v"]) ["v"]
      = check_variables_rules c8w_state ["v"] := by
  have h := C8_second_pass_characterization c8w_state ["v"]
    (by decide)
    (by
      intro kr hkr
      rcases List.mem_singleton.mp hkr with rfl
      decide)
    (by
      intro kr hkr
      rcases List.mem_singleton.mp hkr with rfl
      exact ⟨⟨_, rfl⟩, ⟨_, rfl⟩, ⟨_, rfl⟩⟩)
  exact h.2.2 rfl

end Q2M
